import Mathlib

/-!
# Verification of the polymarket-mm pricing and risk engine

Shallow embedding of the engine's core components (order book, market maker,
order manager with paper-fill simulator, position accounting, adverse-selection
multiplier, and state persistence) together with proofs about the properties
stated in the specification.

Real-valued quantities (C++ `double`) are modelled as rationals `ℚ`, so all
arithmetic is exact; machine clocks are passed in as explicit parameters.
-/

/-! ## Scalar types (core/types.hpp) -/

abbrev Price : Type := ℚ

abbrev Size : Type := ℚ

abbrev TokenId : Type := String

abbrev OrderId : Type := String

inductive Side where
  | BUY
  | SELL
deriving Repr, DecidableEq

/-! ## Order book (data/order_book)

`OrderBook` holds two price→size maps: bids descending (`std::map` with
`std::greater`), asks ascending.  We model each map as a list of
(price, size) pairs kept sorted by the insertion functions, so the first
element corresponds to `begin()` of the C++ map. -/

structure OrderBook where
  bids : List (Price × Size)
  asks : List (Price × Size)
deriving Repr, DecidableEq

/-- Insertion into a descending-by-price association list (bids map). -/
def insertDescQ : List (Price × Size) → Price → Size → List (Price × Size)
  | [], p, s => [(p, s)]
  | (q, t) :: rest, p, s =>
    if p > q then (p, s) :: (q, t) :: rest
    else if p = q then (p, s) :: rest
    else (q, t) :: insertDescQ rest p s

/-- Insertion into an ascending-by-price association list (asks map). -/
def insertAscQ : List (Price × Size) → Price → Size → List (Price × Size)
  | [], p, s => [(p, s)]
  | (q, t) :: rest, p, s =>
    if p < q then (p, s) :: (q, t) :: rest
    else if p = q then (p, s) :: rest
    else (q, t) :: insertAscQ rest p s

/-- `map::erase(price)`: remove the level at the given price, if present. -/
def eraseKeyQ : List (Price × Size) → Price → List (Price × Size)
  | [], _ => []
  | (q, t) :: rest, p => if p = q then rest else (q, t) :: eraseKeyQ rest p

/-- `OrderBook::updateBid`: size 0 removes the level, otherwise set it. -/
def OrderBook.updateBid (b : OrderBook) (price : Price) (size : Size) : OrderBook :=
  if size = 0 then { b with bids := eraseKeyQ b.bids price }
  else { b with bids := insertDescQ b.bids price size }

/-- `OrderBook::updateAsk`: size 0 removes the level, otherwise set it. -/
def OrderBook.updateAsk (b : OrderBook) (price : Price) (size : Size) : OrderBook :=
  if size = 0 then { b with asks := eraseKeyQ b.asks price }
  else { b with asks := insertAscQ b.asks price size }

/-- `OrderBook::clear`. -/
def OrderBook.clear (_ : OrderBook) : OrderBook := ⟨[], []⟩

/-- `OrderBook::getBestBid`: first key of the descending bid map, 0.0 if empty. -/
def OrderBook.getBestBid (b : OrderBook) : Price :=
  match b.bids with
  | [] => 0
  | (p, _) :: _ => p

/-- `OrderBook::getBestAsk`: first key of the ascending ask map, 0.0 if empty. -/
def OrderBook.getBestAsk (b : OrderBook) : Price :=
  match b.asks with
  | [] => 0
  | (p, _) :: _ => p

/-- `OrderBook::hasValidBBO`: both sides non-empty. -/
def OrderBook.hasValidBBO (b : OrderBook) : Bool :=
  !b.bids.isEmpty && !b.asks.isEmpty

/-- `OrderBook::getSpread`: 0.0 without a valid BBO, else ask − bid. -/
def OrderBook.getSpread (b : OrderBook) : Price :=
  if b.hasValidBBO then b.getBestAsk - b.getBestBid else 0

/-- `OrderBook::getMid`: 0.0 without a valid BBO, else (bid + ask)/2. -/
def OrderBook.getMid (b : OrderBook) : Price :=
  if b.hasValidBBO then (b.getBestBid + b.getBestAsk) / 2 else 0

/-- `OrderBook::getTotalBidVolume(levels)`: sum of sizes of the top levels. -/
def OrderBook.getTotalBidVolume (b : OrderBook) (levels : Nat) : Size :=
  ((b.bids.take levels).map Prod.snd).sum

/-- `OrderBook::getTotalAskVolume(levels)`: sum of sizes of the top levels. -/
def OrderBook.getTotalAskVolume (b : OrderBook) (levels : Nat) : Size :=
  ((b.asks.take levels).map Prod.snd).sum

/-- `OrderBook::getImbalance`: (bidVol − askVol)/(bidVol + askVol) over the
top-5 levels, 0 when the total is 0. -/
def OrderBook.getImbalance (b : OrderBook) : ℚ :=
  let bid_vol := b.getTotalBidVolume 5
  let ask_vol := b.getTotalAskVolume 5
  let total := bid_vol + ask_vol
  if total = 0 then 0 else (bid_vol - ask_vol) / total

/-- C10: for every order book in which a side is empty, `getBestBid`
(respectively `getBestAsk`) returns 0.0, and `getMid` and `getSpread` return
0.0 whenever `hasValidBBO` is false; the accessors are total. -/
theorem orderBook_empty_side_accessors (b : OrderBook) :
    (b.bids = [] → b.getBestBid = 0) ∧
    (b.asks = [] → b.getBestAsk = 0) ∧
    (b.hasValidBBO = false → b.getMid = 0 ∧ b.getSpread = 0) := by
  refine ⟨?_, ?_, ?_⟩
  · intro h
    simp [OrderBook.getBestBid, h]
  · intro h
    simp [OrderBook.getBestAsk, h]
  · intro h
    constructor
    · simp [OrderBook.getMid, h]
    · simp [OrderBook.getSpread, h]

/-- Witness for C10 at a concrete book with an empty bid side. -/
theorem orderBook_empty_side_accessors_witness :
    (OrderBook.mk [] [(1/2, 10)]).getBestBid = 0 ∧
    (OrderBook.mk [] [(1/2, 10)]).getMid = 0 ∧
    (OrderBook.mk [] [(1/2, 10)]).getSpread = 0 := by
  have h := orderBook_empty_side_accessors (OrderBook.mk [] [(1/2, 10)])
  exact ⟨h.1 rfl, (h.2.2 rfl).1, (h.2.2 rfl).2⟩

/-! ## Market maker (strategy/market_maker.cpp, lines 242-458)

The engine state fields of `MarketMaker` that `generateQuote` and
`updateInventory` read and write.  The volatility EWMA update
(lines 246-255) mutates only `volatility_` depending on the wall clock;
its result is represented by the `volatility` field of the state passed
in, and `getTimeUrgency` (wall-clock dependent) is passed as the
`time_urgency` argument. -/

structure Quote where
  bid_price : Price
  bid_size : Size
  ask_price : Price
  ask_size : Size
deriving Repr, DecidableEq

structure MarketMaker where
  spread_pct : ℚ
  max_position : ℚ
  volatility : ℚ
  risk_aversion : ℚ
  inventory : ℚ
  inventory_dollars : ℚ
  realized_pnl : ℚ
  avg_cost : ℚ
deriving Repr, DecidableEq

/-- `std::round`: round half away from zero, as an integer. -/
def roundHalfAwayQ (y : ℚ) : ℤ :=
  if 0 ≤ y then ⌊y + 1/2⌋ else ⌈y - 1/2⌉

/-- `MarketMaker::roundToCent`: `std::round(price * 100.0) / 100.0`. -/
def roundToCent (p : ℚ) : ℚ :=
  (roundHalfAwayQ (p * 100) : ℚ) / 100

/-- Clipping to the valid binary-market price range [0.01, 0.99]. -/
def clampPrice (x : ℚ) : ℚ :=
  max (1/100) (min (99/100) x)

/-- `MarketMaker::getTimeUrgency` as a function of the stored close-time flag
and the (integer, `duration_cast<hours>`-truncated) hours remaining. -/
def getTimeUrgency (has_close_time : Bool) (hours_remaining : ℤ) : ℚ :=
  if !has_close_time then 0
  else if hours_remaining < 0 then 1
  else if (hours_remaining : ℚ) > 24 then 0
  else 1 - (hours_remaining : ℚ) / 24

/-- The required-profit percentage of the inventory-risk ask floor
(market_maker.cpp lines 292-306): `0.015·(1 − urgency_factor)`, replaced by
`−0.01` when `urgency_factor > 0.9`, where
`urgency_factor = max(time_urgency, |inventory_dollars|/max_position)`. -/
def minProfitPct (mm : MarketMaker) (time_urgency : ℚ) : ℚ :=
  let inventory_risk := |mm.inventory_dollars| / mm.max_position
  let urgency_factor := max time_urgency inventory_risk
  if urgency_factor > 9/10 then -1/100
  else 3/200 * (1 - urgency_factor)

/-- The tail of `MarketMaker::generateQuote` (market_maker.cpp lines 322-345):
the collapse check, the market-cross check and the capacity sizing, applied to
the already clipped bid and ask. -/
def quoteChecks (mm : MarketMaker) (book : OrderBook) (final_bid final_ask : ℚ) :
    Option Quote :=
  if final_ask ≤ final_bid then none
  else if final_bid ≥ book.getBestAsk ∨ final_ask ≤ book.getBestBid then none
  else
    let remaining_capacity := mm.max_position - |mm.inventory|
    let quote_size := min 100 (remaining_capacity / book.getMid)
    if quote_size < 10 then none
    else some ⟨final_bid, quote_size, final_ask, quote_size⟩

/-- `MarketMaker::generateQuote` (market_maker.cpp lines 242-346). -/
def generateQuote (mm : MarketMaker) (book : OrderBook) (time_urgency : ℚ) :
    Option Quote :=
  let mid := book.getMid
  let market_spread := book.getSpread
  if market_spread < 1/100 then none
  else
    let target_spread_dollars := mid * mm.spread_pct
    let q := mm.inventory / 100
    let gamma := mm.risk_aversion
    let sigma_sq := mm.volatility * mm.volatility
    let reservation_bid := mid - (q + 1) * gamma * sigma_sq
    let reservation_ask := mid + (q - 1) * gamma * sigma_sq
    let imbalance_adjustment := book.getImbalance * (5/1000)
    let our_bid :=
      roundToCent (reservation_bid - target_spread_dollars / 2 + imbalance_adjustment)
    let our_ask :=
      roundToCent (reservation_ask + target_spread_dollars / 2 + imbalance_adjustment)
    let our_ask2 :=
      if mm.inventory > 0 ∧ mm.avg_cost > 0 then
        let min_ask := mm.avg_cost * (1 + minProfitPct mm time_urgency)
        if our_ask < min_ask then min_ask else our_ask
      else our_ask
    quoteChecks mm book (clampPrice our_bid) (clampPrice our_ask2)

/-- `MarketMaker::updateInventory` (market_maker.cpp lines 348-400). -/
def MarketMaker.updateInventory (mm : MarketMaker) (side : Side)
    (filled_size fill_price : ℚ) : MarketMaker :=
  match side with
  | .BUY =>
    let inv := mm.inventory + filled_size
    let dollars := mm.inventory_dollars + filled_size * fill_price
    let avg := if inv > 0 then dollars / inv else mm.avg_cost
    { mm with inventory := inv, inventory_dollars := dollars, avg_cost := avg }
  | .SELL =>
    let old_inventory := mm.inventory
    let inv := mm.inventory - filled_size
    let realized :=
      if old_inventory > 0 then
        mm.realized_pnl + min filled_size old_inventory * (fill_price - mm.avg_cost)
      else mm.realized_pnl
    if inv > 0 then
      { mm with inventory := inv, realized_pnl := realized,
                inventory_dollars := inv * mm.avg_cost }
    else if inv < 0 then
      { mm with inventory := inv, realized_pnl := realized,
                inventory_dollars := inv * fill_price, avg_cost := fill_price }
    else
      { mm with inventory := inv, realized_pnl := realized,
                inventory_dollars := 0, avg_cost := 0 }

/-- `clampPrice` keeps prices in [0.01, 0.99]. -/
theorem clampPrice_mem (x : ℚ) : 1/100 ≤ clampPrice x ∧ clampPrice x ≤ 99/100 := by
  unfold clampPrice
  constructor
  · exact le_max_left _ _
  · exact max_le (by norm_num) (min_le_left _ _)

/-- `clampPrice x` is at least `min 0.99 x`. -/
theorem clampPrice_ge_min (x : ℚ) : min (99/100) x ≤ clampPrice x :=
  le_max_right _ _

/-- Dissection of a successful `quoteChecks`: the quote is built from the two
clipped prices, and all three guards passed. -/
theorem quoteChecks_some (mm : MarketMaker) (book : OrderBook)
    (fb fa : ℚ) (q : Quote) (h : quoteChecks mm book fb fa = some q) :
    q.bid_price = fb ∧ q.ask_price = fa ∧ q.bid_size = q.ask_size ∧
    fb < fa ∧ fb < book.getBestAsk ∧ book.getBestBid < fa ∧
    10 ≤ q.bid_size := by
  simp only [quoteChecks] at h
  split at h
  · exact absurd h (by simp)
  · split at h
    · exact absurd h (by simp)
    · split at h
      · exact absurd h (by simp)
      · rename_i hcollapse hcross hsize
        injection h with h
        subst h
        push_neg at hcollapse hcross hsize
        exact ⟨rfl, rfl, rfl, hcollapse, hcross.1, hcross.2, hsize⟩

/-- C1: whenever `generateQuote` returns a quote on a book with a valid BBO,
the quote satisfies `0.01 ≤ bid < ask ≤ 0.99`, `bid < best_ask`,
`ask > best_bid`, and both sizes are at least 10. -/
theorem generateQuote_valid (mm : MarketMaker) (book : OrderBook)
    (time_urgency : ℚ) (q : Quote)
    (hbbo : book.hasValidBBO = true)
    (h : generateQuote mm book time_urgency = some q) :
    1/100 ≤ q.bid_price ∧ q.bid_price < q.ask_price ∧ q.ask_price ≤ 99/100 ∧
    q.bid_price < book.getBestAsk ∧ book.getBestBid < q.ask_price ∧
    10 ≤ q.bid_size ∧ 10 ≤ q.ask_size := by
  simp only [generateQuote] at h
  split at h
  · exact absurd h (by simp)
  · obtain ⟨hbid, hask, hsizes, hlt, hba, hbb, hsz⟩ := quoteChecks_some _ _ _ _ _ h
    refine ⟨?_, ?_, ?_, ?_, ?_, hsz, hsizes ▸ hsz⟩
    · exact hbid ▸ (clampPrice_mem _).1
    · rw [hbid, hask]; exact hlt
    · exact hask ▸ (clampPrice_mem _).2
    · exact hbid ▸ hba
    · exact hask ▸ hbb

/-- Witness for C1: a concrete book and maker state on which `generateQuote`
returns a quote, and the quote satisfies all the claimed bounds. -/
theorem generateQuote_valid_witness :
    (OrderBook.mk [(12/25, 1000)] [(27/50, 800)]).hasValidBBO = true ∧
    generateQuote (MarketMaker.mk (1/50) 1000 (1/20) (1/10) 0 0 0 0)
      (OrderBook.mk [(12/25, 1000)] [(27/50, 800)]) 0
      = some (Quote.mk (51/100) 100 (13/25) 100) ∧
    (1/100 ≤ (Quote.mk (51/100) 100 (13/25) 100).bid_price ∧
     (Quote.mk (51/100) 100 (13/25) 100).bid_price
       < (Quote.mk (51/100) 100 (13/25) 100).ask_price ∧
     (Quote.mk (51/100) 100 (13/25) 100).ask_price ≤ 99/100 ∧
     (Quote.mk (51/100) 100 (13/25) 100).bid_price
       < (OrderBook.mk [(12/25, 1000)] [(27/50, 800)]).getBestAsk ∧
     (OrderBook.mk [(12/25, 1000)] [(27/50, 800)]).getBestBid
       < (Quote.mk (51/100) 100 (13/25) 100).ask_price ∧
     10 ≤ (Quote.mk (51/100) 100 (13/25) 100).bid_size ∧
     10 ≤ (Quote.mk (51/100) 100 (13/25) 100).ask_size) := by
  have hb : (OrderBook.mk [(12/25, 1000)] [(27/50, 800)]).hasValidBBO = true := by
    norm_num [OrderBook.hasValidBBO]
  have hq : generateQuote (MarketMaker.mk (1/50) 1000 (1/20) (1/10) 0 0 0 0)
      (OrderBook.mk [(12/25, 1000)] [(27/50, 800)]) 0
      = some (Quote.mk (51/100) 100 (13/25) 100) := by
    norm_num [generateQuote, quoteChecks, OrderBook.getMid, OrderBook.getSpread,
      OrderBook.hasValidBBO, OrderBook.getBestBid, OrderBook.getBestAsk,
      OrderBook.getImbalance, OrderBook.getTotalBidVolume, OrderBook.getTotalAskVolume,
      roundToCent, roundHalfAwayQ, clampPrice, minProfitPct, min_def, max_def, abs]
  exact ⟨hb, hq, generateQuote_valid _ _ 0 _ hb hq⟩

/-- C5 as stated is false: with `avg_cost = 0.98` the floor
`avg_cost·(1 + min_profit) ≈ 0.994` exceeds the 0.99 price cap, the produced
ask is clipped to 0.99, and the returned ask is below the floor. -/
theorem generateQuote_ask_floor_counterexample :
    0 < (MarketMaker.mk (1/50) 1000 (1/20) (1/10) 50 49 0 (49/50)).inventory ∧
    0 < (MarketMaker.mk (1/50) 1000 (1/20) (1/10) 50 49 0 (49/50)).avg_cost ∧
    (OrderBook.mk [(1/2, 100)] [(3/5, 100)]).hasValidBBO = true ∧
    generateQuote (MarketMaker.mk (1/50) 1000 (1/20) (1/10) 50 49 0 (49/50))
      (OrderBook.mk [(1/2, 100)] [(3/5, 100)]) 0
      = some (Quote.mk (27/50) 100 (99/100) 100) ∧
    ¬ ((MarketMaker.mk (1/50) 1000 (1/20) (1/10) 50 49 0 (49/50)).avg_cost
        * (1 + minProfitPct (MarketMaker.mk (1/50) 1000 (1/20) (1/10) 50 49 0 (49/50)) 0)
        ≤ (Quote.mk (27/50) 100 (99/100) 100).ask_price) := by
  refine ⟨by norm_num, by norm_num, by norm_num [OrderBook.hasValidBBO], ?_,
          by norm_num [minProfitPct, min_def, max_def, abs]⟩
  norm_num [generateQuote, quoteChecks, OrderBook.getMid, OrderBook.getSpread,
    OrderBook.hasValidBBO, OrderBook.getBestBid, OrderBook.getBestAsk,
    OrderBook.getImbalance, OrderBook.getTotalBidVolume, OrderBook.getTotalAskVolume,
    roundToCent, roundHalfAwayQ, clampPrice, minProfitPct, min_def, max_def, abs]

/-- C5 amended: whenever `generateQuote` returns a quote while
`inventory > 0` and `avg_cost > 0`, the returned ask is at least the smaller
of the floor `avg_cost·(1 + min_profit)` and the 0.99 price cap. -/
theorem generateQuote_ask_floor (mm : MarketMaker) (book : OrderBook)
    (time_urgency : ℚ) (q : Quote)
    (hinv : 0 < mm.inventory) (havg : 0 < mm.avg_cost)
    (h : generateQuote mm book time_urgency = some q) :
    min (mm.avg_cost * (1 + minProfitPct mm time_urgency)) (99/100) ≤ q.ask_price := by
  simp only [generateQuote] at h
  split at h
  · exact absurd h (by simp)
  · rw [if_pos ⟨hinv, havg⟩] at h
    obtain ⟨-, hask, -, -, -, -, -⟩ := quoteChecks_some _ _ _ _ _ h
    rw [hask]
    have h1 : mm.avg_cost * (1 + minProfitPct mm time_urgency) ≤
        (if roundToCent (book.getMid
              + (mm.inventory / 100 - 1) * mm.risk_aversion * (mm.volatility * mm.volatility)
              + book.getMid * mm.spread_pct / 2 + book.getImbalance * (5/1000))
            < mm.avg_cost * (1 + minProfitPct mm time_urgency) then
          mm.avg_cost * (1 + minProfitPct mm time_urgency)
        else roundToCent (book.getMid
              + (mm.inventory / 100 - 1) * mm.risk_aversion * (mm.volatility * mm.volatility)
              + book.getMid * mm.spread_pct / 2 + book.getImbalance * (5/1000))) := by
      split
      · exact le_rfl
      · rename_i hnot
        exact le_of_not_lt hnot
    calc min (mm.avg_cost * (1 + minProfitPct mm time_urgency)) (99/100)
        = min (99/100) (mm.avg_cost * (1 + minProfitPct mm time_urgency)) := min_comm _ _
      _ ≤ min (99/100) _ := min_le_min le_rfl h1
      _ ≤ _ := clampPrice_ge_min _

/-- Witness for the amended C5 at a concrete state where the floor is below
the cap and binding. -/
theorem generateQuote_ask_floor_witness :
    generateQuote (MarketMaker.mk (1/50) 1000 (1/20) (1/10) 50 30 0 (3/5))
      (OrderBook.mk [(1/2, 100)] [(3/5, 100)]) 0
      = some (Quote.mk (27/50) 100 (60873/100000) 100) ∧
    min ((MarketMaker.mk (1/50) 1000 (1/20) (1/10) 50 30 0 (3/5)).avg_cost
        * (1 + minProfitPct (MarketMaker.mk (1/50) 1000 (1/20) (1/10) 50 30 0 (3/5)) 0))
      (99/100)
      ≤ (Quote.mk (27/50) 100 (60873/100000) 100).ask_price := by
  have hq : generateQuote (MarketMaker.mk (1/50) 1000 (1/20) (1/10) 50 30 0 (3/5))
      (OrderBook.mk [(1/2, 100)] [(3/5, 100)]) 0
      = some (Quote.mk (27/50) 100 (60873/100000) 100) := by
    norm_num [generateQuote, quoteChecks, OrderBook.getMid, OrderBook.getSpread,
      OrderBook.hasValidBBO, OrderBook.getBestBid, OrderBook.getBestAsk,
      OrderBook.getImbalance, OrderBook.getTotalBidVolume, OrderBook.getTotalAskVolume,
      roundToCent, roundHalfAwayQ, clampPrice, minProfitPct, min_def, max_def, abs]
  exact ⟨hq, generateQuote_ask_floor _ _ 0 _ (by norm_num) (by norm_num) hq⟩

/-- C3 as stated is false: a BUY fill that closes a short position realizes no
PnL at all (the BUY branch of `updateInventory` never touches
`realized_pnl`), and when the net inventory reaches exactly zero through a
BUY, `avg_cost` is left at its old value instead of being cleared. -/
theorem updateInventory_buy_close_counterexample :
    (MarketMaker.mk (1/50) 1000 (1/20) (1/10) 0 0 0 0).updateInventory .SELL 10 (1/2)
      = MarketMaker.mk (1/50) 1000 (1/20) (1/10) (-10) (-5) 0 (1/2) ∧
    (MarketMaker.mk (1/50) 1000 (1/20) (1/10) (-10) (-5) 0 (1/2)).updateInventory .BUY 10 (2/5)
      = MarketMaker.mk (1/50) 1000 (1/20) (1/10) 0 (-1) 0 (1/2) ∧
    ((MarketMaker.mk (1/50) 1000 (1/20) (1/10) (-10) (-5) 0 (1/2)).updateInventory
        .BUY 10 (2/5)).realized_pnl
      ≠ (MarketMaker.mk (1/50) 1000 (1/20) (1/10) (-10) (-5) 0 (1/2)).realized_pnl
        + (MarketMaker.mk (1/50) 1000 (1/20) (1/10) (-10) (-5) 0 (1/2)).inventory
          * (2/5 - (MarketMaker.mk (1/50) 1000 (1/20) (1/10) (-10) (-5) 0 (1/2)).avg_cost) ∧
    ((MarketMaker.mk (1/50) 1000 (1/20) (1/10) (-10) (-5) 0 (1/2)).updateInventory
        .BUY 10 (2/5)).inventory = 0 ∧
    ((MarketMaker.mk (1/50) 1000 (1/20) (1/10) (-10) (-5) 0 (1/2)).updateInventory
        .BUY 10 (2/5)).avg_cost ≠ 0 := by
  refine ⟨?_, ?_, ?_, ?_, ?_⟩ <;>
    norm_num [MarketMaker.updateInventory, min_def]

/-- C3 amended: the opposite-sign full-close rule of the claim holds for SELL
fills closing a long position (`inventory > 0`, `size ≥ inventory`): the fill
realizes `inventory·(price − avg_cost)`, a strict remainder opens a short at
the fill price, and closing exactly to zero clears `avg_cost`.  BUY fills
never change `realized_pnl`, and a BUY that brings the inventory exactly to
zero leaves `avg_cost` unchanged. -/
theorem updateInventory_close_spec :
    (∀ (mm : MarketMaker) (size price : ℚ),
      0 < mm.inventory → mm.inventory ≤ size →
      ((mm.updateInventory .SELL size price).realized_pnl
          = mm.realized_pnl + mm.inventory * (price - mm.avg_cost) ∧
       (mm.updateInventory .SELL size price).inventory = mm.inventory - size ∧
       (mm.inventory < size →
         (mm.updateInventory .SELL size price).avg_cost = price ∧
         (mm.updateInventory .SELL size price).inventory_dollars
           = (mm.inventory - size) * price) ∧
       (size = mm.inventory →
         (mm.updateInventory .SELL size price).avg_cost = 0 ∧
         (mm.updateInventory .SELL size price).inventory_dollars = 0))) ∧
    (∀ (mm : MarketMaker) (size price : ℚ),
      (mm.updateInventory .BUY size price).realized_pnl = mm.realized_pnl) ∧
    (∀ (mm : MarketMaker) (size price : ℚ),
      mm.inventory + size = 0 →
      (mm.updateInventory .BUY size price).avg_cost = mm.avg_cost) := by
  refine ⟨?_, ?_, ?_⟩
  · intro mm size price h1 h2
    have hmin : min size mm.inventory = mm.inventory := min_eq_right h2
    simp only [MarketMaker.updateInventory]
    split_ifs with h3 h4
    · exact absurd h3 (by linarith)
    · refine ⟨by simp [if_pos h1, hmin], rfl, fun _ => ⟨rfl, rfl⟩, fun h5 => ?_⟩
      exact absurd h4 (by rw [h5]; simp)
    · have h5 : mm.inventory - size = 0 := by linarith [lt_or_ge (mm.inventory - size) 0]
      have h6 : size = mm.inventory := by linarith
      refine ⟨by simp [if_pos h1, hmin], rfl, fun h7 => absurd h4 (by simp; linarith),
              fun _ => ⟨rfl, rfl⟩⟩
  · intro mm size price
    simp [MarketMaker.updateInventory]
  · intro mm size price h
    simp only [MarketMaker.updateInventory]
    rw [if_neg (by rw [h]; exact lt_irrefl 0)]

/-- Witness for the amended C3: a SELL of 15 against a long of 10 at
avg cost 0.5 realizes `10·(0.6 − 0.5) = 1` and opens a short at 0.6. -/
theorem updateInventory_close_spec_witness :
    ((MarketMaker.mk (1/50) 1000 (1/20) (1/10) 10 5 0 (1/2)).updateInventory
        .SELL 15 (3/5)).realized_pnl
      = (MarketMaker.mk (1/50) 1000 (1/20) (1/10) 10 5 0 (1/2)).realized_pnl
        + (MarketMaker.mk (1/50) 1000 (1/20) (1/10) 10 5 0 (1/2)).inventory
          * (3/5 - (MarketMaker.mk (1/50) 1000 (1/20) (1/10) 10 5 0 (1/2)).avg_cost) ∧
    ((MarketMaker.mk (1/50) 1000 (1/20) (1/10) 10 5 0 (1/2)).updateInventory
        .SELL 15 (3/5)).avg_cost = 3/5 := by
  have h := updateInventory_close_spec
  exact ⟨(h.1 _ 15 (3/5) (by norm_num) (by norm_num)).1,
         ((h.1 _ 15 (3/5) (by norm_num) (by norm_num)).2.2.1 (by norm_num)).1⟩

/-! ## Strategy-engine position accounting
(strategy_engine.cpp, `StrategyEngine::updatePosition`, lines 816-860)

Only the fields read and written by the accounting arithmetic are modelled;
`opened_at`, `last_updated`, `entry_side` and `num_fills` are wall-clock
bookkeeping that the accounting never reads. -/

structure Position where
  quantity : ℚ
  avg_entry_price : ℚ
  realized_pnl : ℚ
deriving Repr, DecidableEq

/-- A fill delivered to `StrategyEngine::updatePosition`. -/
structure Fill where
  qty : ℚ
  price : ℚ
  side : Side
deriving Repr, DecidableEq

/-- The C++ `signed_qty`: `qty` for BUY, `−qty` for SELL. -/
def signedQty (side : Side) (qty : ℚ) : ℚ :=
  match side with
  | .BUY => qty
  | .SELL => -qty

/-- `StrategyEngine::updatePosition` (strategy_engine.cpp lines 816-860). -/
def StrategyEngine.updatePosition (pos : Position) (qty price : ℚ) (side : Side) :
    Position :=
  let signed_qty := signedQty side qty
  if (pos.quantity > 0 ∧ signed_qty > 0) ∨ (pos.quantity < 0 ∧ signed_qty < 0) then
    let total_cost := pos.quantity * pos.avg_entry_price + signed_qty * price
    { quantity := pos.quantity + signed_qty,
      avg_entry_price := total_cost / (pos.quantity + signed_qty),
      realized_pnl := pos.realized_pnl }
  else if |signed_qty| ≥ |pos.quantity| then
    { quantity := pos.quantity + signed_qty,
      avg_entry_price := price,
      realized_pnl := pos.realized_pnl + pos.quantity * (price - pos.avg_entry_price) }
  else
    { quantity := pos.quantity + signed_qty,
      avg_entry_price := pos.avg_entry_price,
      realized_pnl := pos.realized_pnl + (-signed_qty) * (price - pos.avg_entry_price) }

/-- Fold of `updatePosition` over a sequence of fills. -/
def applyFills (pos : Position) (fills : List Fill) : Position :=
  fills.foldl (fun p f => StrategyEngine.updatePosition p f.qty f.price f.side) pos

/-- Modelled from the spec (§8 position accounting): the signed quantity of
position closed by a fill of signed size `s` against a position of signed
quantity `q` — positive when a long is being reduced, negative when a short
is being reduced, zero when the fill only adds. -/
def signedClose (q s : ℚ) : ℚ :=
  if q > 0 ∧ s < 0 then min q (-s)
  else if q < 0 ∧ s > 0 then -(min (-q) s)
  else 0

/-- Modelled from the spec (§8): the sum over closed slices of
`signed_close · (close_price − avg_cost at the time of close)` along a fill
sequence, with the account state advanced by the engine. -/
def specClosedPnl : Position → List Fill → ℚ
  | _, [] => 0
  | pos, f :: fs =>
    signedClose pos.quantity (signedQty f.side f.qty) * (f.price - pos.avg_entry_price)
      + specClosedPnl (StrategyEngine.updatePosition pos f.qty f.price f.side) fs

/-- One step of `updatePosition` adds exactly the spec's closed-slice PnL to
`realized_pnl`. -/
theorem updatePosition_realized_step (pos : Position) (qty price : ℚ) (side : Side) :
    (StrategyEngine.updatePosition pos qty price side).realized_pnl
      = pos.realized_pnl
        + signedClose pos.quantity (signedQty side qty)
          * (price - pos.avg_entry_price) := by
  obtain ⟨q, a, r⟩ := pos
  simp only [StrategyEngine.updatePosition, signedClose]
  generalize signedQty side qty = s
  rcases lt_trichotomy q 0 with hq | hq | hq
  · rcases lt_trichotomy s 0 with hs | hs | hs
    · rw [if_pos (Or.inr ⟨hq, hs⟩),
          if_neg (show ¬((q:ℚ) > 0 ∧ s < 0) by rintro ⟨h1, _⟩; linarith),
          if_neg (show ¬((q:ℚ) < 0 ∧ s > 0) by rintro ⟨_, h2⟩; linarith)]
      try (dsimp only; ring)
    · subst hs
      rw [if_neg (by rintro (⟨h1, h2⟩ | ⟨h1, h2⟩) <;> linarith),
          if_neg (show ¬(|(0:ℚ)| ≥ |q|) by
            rw [abs_zero]
            exact not_le.mpr (abs_pos.mpr (ne_of_lt hq))),
          if_neg (show ¬((q:ℚ) > 0 ∧ (0:ℚ) < 0) by rintro ⟨h1, _⟩; linarith),
          if_neg (show ¬((q:ℚ) < 0 ∧ (0:ℚ) > 0) by rintro ⟨_, h2⟩; linarith)]
      try (dsimp only; ring)
    · rcases le_or_lt (-q) s with hqs | hqs
      · rw [if_neg (by rintro (⟨h1, h2⟩ | ⟨h1, h2⟩) <;> linarith),
            if_pos (show |s| ≥ |q| by rw [abs_of_pos hs, abs_of_neg hq]; linarith),
            if_neg (show ¬((q:ℚ) > 0 ∧ s < 0) by rintro ⟨h1, _⟩; linarith),
            if_pos ⟨hq, hs⟩, min_eq_left hqs]
        try (dsimp only; ring)
      · rw [if_neg (by rintro (⟨h1, h2⟩ | ⟨h1, h2⟩) <;> linarith),
            if_neg (show ¬(|s| ≥ |q|) by
              rw [abs_of_pos hs, abs_of_neg hq]
              exact not_le.mpr hqs),
            if_neg (show ¬((q:ℚ) > 0 ∧ s < 0) by rintro ⟨h1, _⟩; linarith),
            if_pos ⟨hq, hs⟩, min_eq_right hqs.le]
        try (dsimp only; ring)
  · subst hq
    rw [if_neg (by rintro (⟨h1, _⟩ | ⟨h1, _⟩) <;> exact lt_irrefl 0 h1),
        if_pos (show |s| ≥ |(0:ℚ)| by rw [abs_zero]; exact abs_nonneg s),
        if_neg (by rintro ⟨h1, _⟩; exact lt_irrefl 0 h1),
        if_neg (by rintro ⟨h1, _⟩; exact lt_irrefl 0 h1)]
    try (dsimp only; ring)
  · rcases lt_trichotomy s 0 with hs | hs | hs
    · rcases le_or_lt q (-s) with hqs | hqs
      · rw [if_neg (by rintro (⟨h1, h2⟩ | ⟨h1, h2⟩) <;> linarith),
            if_pos (show |s| ≥ |q| by rw [abs_of_neg hs, abs_of_pos hq]; linarith),
            if_pos ⟨hq, hs⟩, min_eq_left hqs]
        try (dsimp only; ring)
      · rw [if_neg (by rintro (⟨h1, h2⟩ | ⟨h1, h2⟩) <;> linarith),
            if_neg (show ¬(|s| ≥ |q|) by
              rw [abs_of_neg hs, abs_of_pos hq]
              exact not_le.mpr hqs),
            if_pos ⟨hq, hs⟩, min_eq_right hqs.le]
        try (dsimp only; ring)
    · subst hs
      rw [if_neg (by rintro (⟨h1, h2⟩ | ⟨h1, h2⟩) <;> linarith),
          if_neg (show ¬(|(0:ℚ)| ≥ |q|) by
            rw [abs_zero]
            exact not_le.mpr (abs_pos.mpr (ne_of_gt hq))),
          if_neg (show ¬((q:ℚ) > 0 ∧ (0:ℚ) < 0) by rintro ⟨_, h2⟩; linarith),
          if_neg (show ¬((q:ℚ) < 0 ∧ (0:ℚ) > 0) by rintro ⟨h1, _⟩; linarith)]
      try (dsimp only; ring)
    · rw [if_pos (Or.inl ⟨hq, hs⟩),
          if_neg (show ¬((q:ℚ) > 0 ∧ s < 0) by rintro ⟨_, h2⟩; linarith),
          if_neg (show ¬((q:ℚ) < 0 ∧ s > 0) by rintro ⟨h1, _⟩; linarith)]
      try (dsimp only; ring)

/-- A fill that makes the position cross strictly through zero lands in the
close-or-flip branch and resets the average entry price to the fill price. -/
theorem updatePosition_cross_avg (pos : Position) (qty price : ℚ) (side : Side)
    (h : pos.quantity * (pos.quantity + signedQty side qty) < 0) :
    (StrategyEngine.updatePosition pos qty price side).avg_entry_price = price := by
  obtain ⟨q, a, r⟩ := pos
  dsimp only at h
  simp only [StrategyEngine.updatePosition]
  generalize hgen : signedQty side qty = s at h ⊢
  have hC2 : |s| ≥ |q| := by
    rcases lt_trichotomy q 0 with h1 | h1 | h1
    · have h2 : 0 < q + s := by nlinarith
      rw [abs_of_neg h1, abs_of_pos (show (0:ℚ) < s by linarith)]
      linarith
    · subst h1
      rw [zero_mul] at h
      exact absurd h (lt_irrefl 0)
    · have h2 : q + s < 0 := by nlinarith
      rw [abs_of_pos h1, abs_of_neg (show s < 0 by linarith)]
      linarith
  have hC1 : ¬(((q:ℚ) > 0 ∧ s > 0) ∨ ((q:ℚ) < 0 ∧ s < 0)) := by
    rintro (⟨h1, h2⟩ | ⟨h1, h2⟩) <;> nlinarith
  rw [if_neg hC1, if_pos hC2]

/-- C4: along any fill sequence fed to `StrategyEngine::updatePosition`, the
realized PnL equals the starting realized PnL plus the sum over closed slices
of `signed_close · (close_price − avg_cost at the time of close)`, and any
fill that makes the position cross through zero resets `avg_entry_price` to
that fill's price. -/
theorem updatePosition_accounting :
    (∀ (pos : Position) (fills : List Fill),
      (applyFills pos fills).realized_pnl
        = pos.realized_pnl + specClosedPnl pos fills) ∧
    (∀ (pos : Position) (qty price : ℚ) (side : Side),
      pos.quantity * (pos.quantity + signedQty side qty) < 0 →
      (StrategyEngine.updatePosition pos qty price side).avg_entry_price = price) := by
  constructor
  · intro pos fills
    induction fills generalizing pos with
    | nil => simp [applyFills, specClosedPnl]
    | cons f fs ih =>
      have hstep : applyFills pos (f :: fs)
          = applyFills (StrategyEngine.updatePosition pos f.qty f.price f.side) fs := by
        simp [applyFills]
      rw [hstep, ih, updatePosition_realized_step, specClosedPnl]
      ring
  · intro pos qty price side h
    exact updatePosition_cross_avg pos qty price side h

/-- Witness for C4: a concrete two-fill trace (buy 10 at 0.5, sell 15 at 0.6)
and a concrete crossing fill discharging the crossing hypothesis. -/
theorem updatePosition_accounting_witness :
    (applyFills (Position.mk 0 0 0)
        [Fill.mk 10 (1/2) .BUY, Fill.mk 15 (3/5) .SELL]).realized_pnl
      = (Position.mk 0 0 0).realized_pnl
        + specClosedPnl (Position.mk 0 0 0)
            [Fill.mk 10 (1/2) .BUY, Fill.mk 15 (3/5) .SELL] ∧
    (Position.mk 5 (1/2) 0).quantity
        * ((Position.mk 5 (1/2) 0).quantity + signedQty .SELL 8) < 0 ∧
    (StrategyEngine.updatePosition (Position.mk 5 (1/2) 0) 8 (3/5) .SELL).avg_entry_price
      = 3/5 := by
  refine ⟨updatePosition_accounting.1 _ _, ?_,
          updatePosition_accounting.2 _ 8 (3/5) .SELL ?_⟩ <;>
    norm_num [signedQty]

/-! ## Adverse-selection spread multiplier (strategy/adverse_selection.cpp)

The per-token entry of `spread_multipliers_` is `Option ℚ`: `none` models a
token with no stored entry.  `operator[]` value-initialises an absent entry
to 0.0 before the update formulas run (`updateMetrics`, lines 78-93). -/

/-- The toxic-fill update (adverse_selection.cpp lines 78-85):
`multiplier = min(MAX_MULTIPLIER, multiplier·1.2 + 0.1)` applied to the stored
entry, with `operator[]` default-inserting 0.0 when absent. -/
def toxicUpdate (stored : Option ℚ) : ℚ :=
  min 3 (stored.getD 0 * (6/5) + 1/10)

/-- The favorable-fill update (adverse_selection.cpp lines 86-93):
`multiplier = max(MIN_MULTIPLIER, multiplier·0.95)`, with `operator[]`
default-inserting 0.0 when absent. -/
def favorableUpdate (stored : Option ℚ) : ℚ :=
  max 1 (stored.getD 0 * (19/20))

/-- One decay step (adverse_selection.cpp lines 215-225):
`multiplier ← max(1, 1 + (multiplier − 1)·0.95)` when the stored value
exceeds 1, otherwise unchanged. -/
def decayStep (m : ℚ) : ℚ :=
  if m > 1 then max 1 (1 + (m - 1) * (19/20)) else m

/-- C6 (code bug): the first toxic fill on a token with no stored multiplier
default-inserts 0.0 and stores `min(3, 0·1.2 + 0.1) = 0.1`, which is below
the claimed lower bound 1.0; `decay` then leaves the out-of-range value
untouched (its guard requires `multiplier > 1`).  For values already in
[1, 3], all three operations do stay in range, as the other conjuncts show. -/
theorem spreadMultiplier_first_toxic_below_min :
    toxicUpdate none = 1/10 ∧ ¬ (1 ≤ toxicUpdate none) ∧
    decayStep (toxicUpdate none) = 1/10 ∧
    (∀ m : ℚ, 1 ≤ m → m ≤ 3 → 1 ≤ toxicUpdate (some m) ∧ toxicUpdate (some m) ≤ 3) ∧
    (∀ m : ℚ, 1 ≤ m → m ≤ 3 → 1 ≤ favorableUpdate (some m) ∧ favorableUpdate (some m) ≤ 3) ∧
    (∀ m : ℚ, 1 ≤ m → m ≤ 3 →
      1 ≤ decayStep m ∧ decayStep m ≤ 3 ∧ |decayStep m - 1| ≤ |m - 1|) := by
  refine ⟨?_, ?_, ?_, ?_, ?_, ?_⟩
  · norm_num [toxicUpdate, min_def]
  · norm_num [toxicUpdate, min_def]
  · norm_num [toxicUpdate, decayStep, min_def]
  · intro m h1 h3
    constructor
    · rw [toxicUpdate, le_min_iff]
      constructor
      · norm_num
      · simp only [Option.getD_some]
        linarith
    · exact min_le_left _ _
  · intro m h1 h3
    constructor
    · exact le_max_left _ _
    · rw [favorableUpdate, max_le_iff]
      constructor
      · norm_num
      · simp only [Option.getD_some]
        linarith
  · intro m h1 h3
    unfold decayStep
    split_ifs with h2
    · refine ⟨le_max_left _ _, ?_, ?_⟩
      · rw [max_le_iff]
        constructor
        · norm_num
        · linarith
      · rw [abs_of_nonneg (show (0:ℚ) ≤ max 1 (1 + (m-1) * (19/20)) - 1 by
              have := le_max_left (1:ℚ) (1 + (m-1) * (19/20))
              linarith),
            abs_of_nonneg (by linarith : (0:ℚ) ≤ m - 1)]
        rw [max_eq_right (by linarith : (1:ℚ) ≤ 1 + (m-1) * (19/20))]
        linarith
    · exact ⟨h1, h3, le_refl _⟩

/-! ## Order manager (strategy/order_manager.cpp)

`orders_` is a map `OrderId → Order`, modelled as an association list; the
paper-fill simulator `checkForFills`/`generateFill` follows the C++ two-pass
structure: collect the crossed OPEN orders, then fill each collected id
through a fresh map lookup. -/

inductive OrderStatus where
  | OPEN
  | FILLED
  | CANCELLED
deriving Repr, DecidableEq

structure Order where
  id : OrderId
  token_id : TokenId
  side : Side
  price : Price
  size : Size
  filled_size : Size
  status : OrderStatus
deriving Repr, DecidableEq

/-- The payload of an `ORDER_FILL` event (`Event::orderFill`). -/
structure FillEvent where
  order_id : OrderId
  token_id : TokenId
  price : Price
  size : Size
  side : Side
deriving Repr, DecidableEq

/-- `orders_.find(id)` on the association-list map. -/
def lookupOrd : List (OrderId × Order) → OrderId → Option Order
  | [], _ => none
  | (k, o) :: rest, id => if k = id then some o else lookupOrd rest id

/-- In-place mutation of the entry at an existing key. -/
def setOrd : List (OrderId × Order) → OrderId → Order → List (OrderId × Order)
  | [], _, _ => []
  | (k, o) :: rest, id, o2 =>
    if k = id then (k, o2) :: rest else (k, o) :: setOrd rest id o2

/-- The paper-fill crossing test of `checkForFills` (order_manager.cpp lines
171-185): a BUY fills when `0 < best_ask ≤ order.price`, a SELL fills when
`best_bid > 0` and `best_bid ≥ order.price`. -/
def shouldFillOrd (book : OrderBook) (o : Order) : Bool :=
  match o.side with
  | .BUY => decide (0 < book.getBestAsk) && decide (book.getBestAsk ≤ o.price)
  | .SELL => decide (0 < book.getBestBid) && decide (o.price ≤ book.getBestBid)

/-- `OrderManager::generateFill` (order_manager.cpp lines 200-224): look the
order up, add the fill to `filled_size`, set FILLED when full, emit the
`OrderFill` event; a missing order is silently ignored. -/
def generateFill (orders : List (OrderId × Order)) (events : List FillEvent)
    (order_id : OrderId) (fill_price fill_size : ℚ) :
    List (OrderId × Order) × List FillEvent :=
  match lookupOrd orders order_id with
  | none => (orders, events)
  | some o =>
    let filled := o.filled_size + fill_size
    let o2 := { o with filled_size := filled,
                       status := if filled ≥ o.size then .FILLED else o.status }
    (setOrd orders order_id o2,
     events ++ [⟨order_id, o.token_id, fill_price, fill_size, o.side⟩])

/-- One iteration of the second loop of `checkForFills` (lines 192-197):
re-find the order and fill it at its own price and size. -/
def processFillStep (st : List (OrderId × Order) × List FillEvent)
    (order_id : OrderId) : List (OrderId × Order) × List FillEvent :=
  match lookupOrd st.1 order_id with
  | none => st
  | some o => generateFill st.1 st.2 order_id o.price o.size

/-- `OrderManager::checkForFills` (order_manager.cpp lines 158-198), paper
mode: first pass collects the ids of OPEN orders of the token whose crossing
test passes; the second pass fills each collected id. -/
def checkForFills (orders : List (OrderId × Order)) (token : TokenId)
    (book : OrderBook) : List (OrderId × Order) × List FillEvent :=
  let fills_to_process :=
    (orders.filter fun ko =>
      ko.2.token_id == token && (ko.2.status == OrderStatus.OPEN)
        && shouldFillOrd book ko.2).map Prod.fst
  fills_to_process.foldl processFillStep (orders, [])

/-- `OrderManager::getOpenOrders` (order_manager.cpp lines 226-234): all
tracked orders of the token, with no status filter. -/
def getOpenOrders (orders : List (OrderId × Order)) (token : TokenId) :
    List Order :=
  (orders.filter fun ko => ko.2.token_id == token).map Prod.snd

/-- The full-fill transformation a crossed order undergoes. -/
def fillOrderFull (o : Order) : Order :=
  { o with filled_size := o.filled_size + o.size,
           status := if o.filled_size + o.size ≥ o.size then .FILLED else o.status }

/-- The event emitted for a crossed order. -/
def fillEventOf (order_id : OrderId) (o : Order) : FillEvent :=
  ⟨order_id, o.token_id, o.price, o.size, o.side⟩

/-- A successful lookup is a membership. -/
theorem lookupOrd_mem {l : List (OrderId × Order)} {k : OrderId} {o : Order}
    (h : lookupOrd l k = some o) : (k, o) ∈ l := by
  induction l with
  | nil => simp [lookupOrd] at h
  | cons ko rest ih =>
    obtain ⟨k2, o2⟩ := ko
    simp only [lookupOrd] at h
    split at h
    · rename_i heq
      injection h with h
      subst heq h
      exact List.mem_cons_self _ _
    · exact List.mem_cons_of_mem _ (ih h)

/-- With distinct keys, a membership determines the lookup. -/
theorem mem_lookupOrd {l : List (OrderId × Order)} {k : OrderId} {o : Order}
    (hnd : (l.map Prod.fst).Nodup) (h : (k, o) ∈ l) : lookupOrd l k = some o := by
  induction l with
  | nil => simp at h
  | cons ko rest ih =>
    obtain ⟨k2, o2⟩ := ko
    simp only [List.map_cons, List.nodup_cons] at hnd
    rcases List.mem_cons.mp h with h1 | h1
    · injection h1 with e1 e2
      subst e1
      subst e2
      simp [lookupOrd]
    · have hne : k2 ≠ k := by
        rintro rfl
        exact hnd.1 (List.mem_map.mpr ⟨(k2, o), h1, rfl⟩)
      simp only [lookupOrd, if_neg hne]
      exact ih hnd.2 h1

/-- Two bindings of the same key in a nodup-key map are equal. -/
theorem mem_unique_of_nodup {l : List (OrderId × Order)} {k : OrderId}
    {o o2 : Order} (hnd : (l.map Prod.fst).Nodup)
    (h1 : (k, o) ∈ l) (h2 : (k, o2) ∈ l) : o = o2 := by
  have e1 := mem_lookupOrd hnd h1
  have e2 := mem_lookupOrd hnd h2
  rw [e1] at e2
  injection e2

/-- `setOrd` changes only the given key. -/
theorem lookupOrd_setOrd_ne (l : List (OrderId × Order)) (k : OrderId)
    (o2 : Order) (k2 : OrderId) (h : k2 ≠ k) :
    lookupOrd (setOrd l k o2) k2 = lookupOrd l k2 := by
  induction l with
  | nil => rfl
  | cons ko rest ih =>
    obtain ⟨k3, o3⟩ := ko
    simp only [setOrd]
    split
    · rename_i heq
      subst heq
      have hne : k3 ≠ k2 := fun e => h e.symm
      simp only [lookupOrd, if_neg hne]
    · simp only [lookupOrd]
      split
      · rfl
      · exact ih

/-- `setOrd` at a present key updates the first binding. -/
theorem lookupOrd_setOrd_self (l : List (OrderId × Order)) (k : OrderId)
    (o o2 : Order) (h : lookupOrd l k = some o) :
    lookupOrd (setOrd l k o2) k = some o2 := by
  induction l with
  | nil => simp [lookupOrd] at h
  | cons ko rest ih =>
    obtain ⟨k3, o3⟩ := ko
    simp only [lookupOrd] at h
    simp only [setOrd]
    split
    · rename_i heq
      simp [lookupOrd, heq]
    · rename_i hne
      simp only [lookupOrd, if_neg hne]
      exact ih (by rwa [if_neg hne] at h)

/-- Equation for one fill-processing step. -/
theorem processFillStep_eq (orders : List (OrderId × Order)) (evs : List FillEvent)
    (id : OrderId) :
    processFillStep (orders, evs) id =
      match lookupOrd orders id with
      | none => (orders, evs)
      | some o => (setOrd orders id (fillOrderFull o), evs ++ [fillEventOf id o]) := by
  cases h : lookupOrd orders id <;>
    simp [processFillStep, generateFill, h, fillOrderFull, fillEventOf]

/-- The second pass leaves unprocessed keys untouched. -/
theorem processFills_lookup_of_notmem (ids : List OrderId) :
    ∀ (orders : List (OrderId × Order)) (evs : List FillEvent) (k : OrderId),
    k ∉ ids →
    lookupOrd (ids.foldl processFillStep (orders, evs)).1 k = lookupOrd orders k := by
  induction ids with
  | nil =>
    intro orders evs k _
    rfl
  | cons id rest ih =>
    intro orders evs k hk
    have hk1 : k ≠ id := fun e => hk (e ▸ List.mem_cons_self _ _)
    have hk2 : k ∉ rest := fun e => hk (List.mem_cons_of_mem _ e)
    simp only [List.foldl_cons, processFillStep_eq]
    cases h : lookupOrd orders id with
    | none =>
      simp only []
      exact ih orders evs k hk2
    | some o =>
      simp only []
      rw [ih _ _ k hk2]
      exact lookupOrd_setOrd_ne orders id _ k hk1

/-- The second pass applies the full-fill transformation to every processed
key. -/
theorem processFills_lookup_of_mem (ids : List OrderId) :
    ∀ (orders : List (OrderId × Order)) (evs : List FillEvent) (k : OrderId)
      (o : Order), ids.Nodup → k ∈ ids → lookupOrd orders k = some o →
    lookupOrd (ids.foldl processFillStep (orders, evs)).1 k
      = some (fillOrderFull o) := by
  induction ids with
  | nil =>
    intro _ _ _ _ _ hk _
    simp at hk
  | cons id rest ih =>
    intro orders evs k o hnd hk ho
    obtain ⟨hnotin, hnd2⟩ := List.nodup_cons.mp hnd
    simp only [List.foldl_cons, processFillStep_eq]
    rcases List.mem_cons.mp hk with rfl | hk2
    · rw [ho]
      simp only []
      rw [processFills_lookup_of_notmem rest _ _ k hnotin]
      exact lookupOrd_setOrd_self orders k o _ ho
    · have hne : k ≠ id := by
        rintro rfl
        exact hnotin hk2
      cases h : lookupOrd orders id with
      | none =>
        simp only []
        exact ih orders evs k o hnd2 hk2 ho
      | some o2 =>
        simp only []
        refine ih _ _ k o hnd2 hk2 ?_
        rw [lookupOrd_setOrd_ne orders id _ k hne]
        exact ho

/-- The second pass emits exactly one event per processed id, built from the
order as it was before the pass. -/
theorem processFills_events (ids : List OrderId) :
    ∀ (orders : List (OrderId × Order)) (evs : List FillEvent), ids.Nodup →
    (ids.foldl processFillStep (orders, evs)).2
      = evs ++ ids.filterMap
          (fun id => (lookupOrd orders id).map (fillEventOf id)) := by
  induction ids with
  | nil =>
    intro orders evs _
    simp
  | cons id rest ih =>
    intro orders evs hnd
    obtain ⟨hnotin, hnd2⟩ := List.nodup_cons.mp hnd
    simp only [List.foldl_cons, processFillStep_eq, List.filterMap_cons]
    cases h : lookupOrd orders id with
    | none =>
      simp only [Option.map_none]
      exact ih orders evs hnd2
    | some o =>
      simp only [Option.map_some]
      rw [ih _ _ hnd2]
      have hcongr : rest.filterMap
            (fun id2 => (lookupOrd (setOrd orders id (fillOrderFull o)) id2).map
              (fillEventOf id2))
          = rest.filterMap
            (fun id2 => (lookupOrd orders id2).map (fillEventOf id2)) := by
        apply List.filterMap_congr
        intro x hx
        rw [lookupOrd_setOrd_ne orders id _ x (by rintro rfl; exact hnotin hx)]
      rw [hcongr]
      simp

/-- The collected first-pass ids of `checkForFills`. -/
def crossedIds (orders : List (OrderId × Order)) (token : TokenId)
    (book : OrderBook) : List OrderId :=
  (orders.filter fun ko =>
    ko.2.token_id == token && (ko.2.status == OrderStatus.OPEN)
      && shouldFillOrd book ko.2).map Prod.fst

/-- `checkForFills` is the second pass folded over the collected ids. -/
theorem checkForFills_eq (orders : List (OrderId × Order)) (token : TokenId)
    (book : OrderBook) :
    checkForFills orders token book
      = (crossedIds orders token book).foldl processFillStep (orders, []) := rfl

/-- The collected ids have no duplicates when the map keys are distinct. -/
theorem crossedIds_nodup (orders : List (OrderId × Order)) (token : TokenId)
    (book : OrderBook) (hnd : (orders.map Prod.fst).Nodup) :
    (crossedIds orders token book).Nodup := by
  unfold crossedIds
  exact hnd.sublist ((List.filter_sublist orders).map Prod.fst)

/-- Membership in the collected ids, for a binding of a nodup-key map. -/
theorem mem_crossedIds (orders : List (OrderId × Order)) (token : TokenId)
    (book : OrderBook) (hnd : (orders.map Prod.fst).Nodup)
    (k : OrderId) (o : Order) (hko : (k, o) ∈ orders) :
    k ∈ crossedIds orders token book
      ↔ (o.token_id = token ∧ o.status = .OPEN ∧ shouldFillOrd book o = true) := by
  constructor
  · intro hk
    obtain ⟨⟨k2, o2⟩, hmem, he⟩ := List.mem_map.mp hk
    obtain ⟨hmem2, hpred⟩ := List.mem_filter.mp hmem
    dsimp only at he
    subst he
    have : o2 = o := mem_unique_of_nodup hnd hmem2 hko
    subst this
    simp only [Bool.and_eq_true, beq_iff_eq] at hpred
    exact ⟨hpred.1.1, hpred.1.2, hpred.2⟩
  · intro ⟨h1, h2, h3⟩
    refine List.mem_map.mpr ⟨(k, o), List.mem_filter.mpr ⟨hko, ?_⟩, rfl⟩
    simp [Bool.and_eq_true, beq_iff_eq, h1, h2, h3]

/-- Every collected id has a successful lookup. -/
theorem crossedIds_lookup (orders : List (OrderId × Order)) (token : TokenId)
    (book : OrderBook) (hnd : (orders.map Prod.fst).Nodup)
    (k : OrderId) (hk : k ∈ crossedIds orders token book) :
    ∃ o, lookupOrd orders k = some o := by
  obtain ⟨⟨k2, o2⟩, hmem, he⟩ := List.mem_map.mp hk
  dsimp only at he
  subst he
  exact ⟨o2, mem_lookupOrd hnd (List.mem_filter.mp hmem).1⟩

/-- The emitted events are exactly one per collected id, in pass order. -/
theorem checkForFills_events_map (orders : List (OrderId × Order))
    (token : TokenId) (book : OrderBook) (hnd : (orders.map Prod.fst).Nodup) :
    ((checkForFills orders token book).2.map FillEvent.order_id)
      = crossedIds orders token book := by
  rw [checkForFills_eq,
      processFills_events _ _ _ (crossedIds_nodup orders token book hnd)]
  simp only [List.nil_append]
  have : ∀ (ids : List OrderId), (∀ id ∈ ids, ∃ o, lookupOrd orders id = some o) →
      ((ids.filterMap
          (fun id => (lookupOrd orders id).map (fillEventOf id))).map
        FillEvent.order_id) = ids := by
    intro ids
    induction ids with
    | nil => intro _; rfl
    | cons id rest ih =>
      intro hs
      obtain ⟨o, ho⟩ := hs id (List.mem_cons_self _ _)
      simp only [List.filterMap_cons, ho, Option.map_some]
      simp [fillEventOf, ih (fun x hx => hs x (List.mem_cons_of_mem _ hx))]
  exact this _ (crossedIds_lookup orders token book hnd)

/-- C2 amended: in paper mode, on a book update a fill event is emitted for a
tracked order exactly when the order is OPEN on that token and the code's
crossing test holds — `side=BUY ∧ 0 < best_ask ≤ price` or
`side=SELL ∧ 0 < best_bid` and `best_bid ≥ price` (the claim's predicate plus
the `> 0` non-empty-side guards); the crossed order gets a single full fill
event at its own price and size, and its entry becomes FILLED with
`filled_size = size`. -/
theorem checkForFills_spec (orders : List (OrderId × Order)) (token : TokenId)
    (book : OrderBook)
    (hnd : (orders.map Prod.fst).Nodup)
    (hfz : ∀ k o, (k, o) ∈ orders → o.status = .OPEN → o.filled_size = 0) :
    (∀ k o, (k, o) ∈ orders →
      ((∃ e ∈ (checkForFills orders token book).2, e.order_id = k) ↔
        (o.token_id = token ∧ o.status = .OPEN ∧ shouldFillOrd book o = true))) ∧
    (∀ k o, (k, o) ∈ orders → o.token_id = token → o.status = .OPEN →
      shouldFillOrd book o = true →
      fillEventOf k o ∈ (checkForFills orders token book).2 ∧
      lookupOrd (checkForFills orders token book).1 k
        = some { o with filled_size := o.size, status := .FILLED } ∧
      (fillEventOf k o).price = o.price ∧ (fillEventOf k o).size = o.size) ∧
    ((checkForFills orders token book).2.map FillEvent.order_id).Nodup := by
  refine ⟨?_, ?_, ?_⟩
  · intro k o hko
    have hmm : (∃ e ∈ (checkForFills orders token book).2, e.order_id = k)
        ↔ k ∈ ((checkForFills orders token book).2.map FillEvent.order_id) := by
      rw [List.mem_map]
    rw [hmm, checkForFills_events_map orders token book hnd]
    exact mem_crossedIds orders token book hnd k o hko
  · intro k o hko htok hopen hcross
    have hkP : k ∈ crossedIds orders token book :=
      (mem_crossedIds orders token book hnd k o hko).mpr ⟨htok, hopen, hcross⟩
    have hlook : lookupOrd orders k = some o := mem_lookupOrd hnd hko
    refine ⟨?_, ?_, rfl, rfl⟩
    · rw [checkForFills_eq,
          processFills_events _ _ _ (crossedIds_nodup orders token book hnd)]
      simp only [List.nil_append]
      exact List.mem_filterMap.mpr ⟨k, hkP, by rw [hlook]; rfl⟩
    · rw [checkForFills_eq,
          processFills_lookup_of_mem _ _ _ k o
            (crossedIds_nodup orders token book hnd) hkP hlook]
      have hf : o.filled_size = 0 := hfz k o hko hopen
      simp [fillOrderFull, hf]
  · rw [checkForFills_events_map orders token book hnd]
    exact crossedIds_nodup orders token book hnd

/-- C2 as stated is false: on a book with an empty ask side, `getBestAsk`
returns 0, so the claim's predicate `side=BUY ∧ best_ask ≤ order.price` holds
for an OPEN BUY order, yet the code's additional `best_ask > 0` guard
suppresses the fill and no event is emitted. -/
theorem checkForFills_iff_counterexample :
    ¬ ((∃ e ∈ (checkForFills
          [("ORD_1", Order.mk "ORD_1" "T" .BUY (3/10) 20 0 .OPEN)] "T"
          (OrderBook.mk [(1/2, 100)] [])).2, e.order_id = "ORD_1") ↔
       ((Order.mk "ORD_1" "T" .BUY (3/10) 20 0 .OPEN).token_id = "T" ∧
        (Order.mk "ORD_1" "T" .BUY (3/10) 20 0 .OPEN).status = .OPEN ∧
        (((Order.mk "ORD_1" "T" .BUY (3/10) 20 0 .OPEN).side = .BUY ∧
          (OrderBook.mk [(1/2, 100)] []).getBestAsk
            ≤ (Order.mk "ORD_1" "T" .BUY (3/10) 20 0 .OPEN).price) ∨
         ((Order.mk "ORD_1" "T" .BUY (3/10) 20 0 .OPEN).side = .SELL ∧
          (OrderBook.mk [(1/2, 100)] []).getBestBid
            ≥ (Order.mk "ORD_1" "T" .BUY (3/10) 20 0 .OPEN).price)))) := by
  have hev : (checkForFills
      [("ORD_1", Order.mk "ORD_1" "T" .BUY (3/10) 20 0 .OPEN)] "T"
      (OrderBook.mk [(1/2, 100)] [])).2 = [] := by
    have hsf : shouldFillOrd (OrderBook.mk [(1/2, 100)] [])
        (Order.mk "ORD_1" "T" .BUY (3/10) 20 0 .OPEN) = false := by
      simp only [shouldFillOrd, OrderBook.getBestAsk]
      rw [decide_eq_false (lt_irrefl (0:ℚ))]
      simp
    simp only [checkForFills, List.filter, hsf, Bool.and_false, List.map_nil,
      List.foldl_nil]
  intro h
  obtain ⟨e, he, -⟩ := h.mpr ⟨rfl, rfl, Or.inl ⟨rfl, by
    simp only [OrderBook.getBestAsk]
    norm_num⟩⟩
  rw [hev] at he
  exact (List.not_mem_nil e) he

/-- Witness for the amended C2: a single OPEN SELL order at 0.4 on a book
with best bid 0.5 is crossed, emits one fill event at its own price and
size, and its entry becomes FILLED. -/
theorem checkForFills_spec_witness :
    (∃ e ∈ (checkForFills
        [("ORD_1", Order.mk "ORD_1" "T" .SELL (2/5) 20 0 .OPEN)] "T"
        (OrderBook.mk [(1/2, 100)] [(3/5, 50)])).2, e.order_id = "ORD_1") ∧
    fillEventOf "ORD_1" (Order.mk "ORD_1" "T" .SELL (2/5) 20 0 .OPEN)
      ∈ (checkForFills
        [("ORD_1", Order.mk "ORD_1" "T" .SELL (2/5) 20 0 .OPEN)] "T"
        (OrderBook.mk [(1/2, 100)] [(3/5, 50)])).2 ∧
    lookupOrd (checkForFills
        [("ORD_1", Order.mk "ORD_1" "T" .SELL (2/5) 20 0 .OPEN)] "T"
        (OrderBook.mk [(1/2, 100)] [(3/5, 50)])).1 "ORD_1"
      = some (Order.mk "ORD_1" "T" .SELL (2/5) 20 20 .FILLED) := by
  have hnd : ((([("ORD_1", Order.mk "ORD_1" "T" .SELL (2/5) 20 0 .OPEN)]) :
      List (OrderId × Order)).map Prod.fst).Nodup := by simp
  have hfz : ∀ k o, (k, o) ∈
      ([("ORD_1", Order.mk "ORD_1" "T" .SELL (2/5) 20 0 .OPEN)] :
        List (OrderId × Order)) →
      o.status = .OPEN → o.filled_size = 0 := by
    intro k o hko _
    simp only [List.mem_singleton] at hko
    have h2 := congrArg Prod.snd hko
    simp only [] at h2
    rw [h2]
  have h := checkForFills_spec
    [("ORD_1", Order.mk "ORD_1" "T" .SELL (2/5) 20 0 .OPEN)] "T"
    (OrderBook.mk [(1/2, 100)] [(3/5, 50)]) hnd hfz
  have hcross : shouldFillOrd (OrderBook.mk [(1/2, 100)] [(3/5, 50)])
      (Order.mk "ORD_1" "T" .SELL (2/5) 20 0 .OPEN) = true := by
    simp only [shouldFillOrd, OrderBook.getBestBid]
    norm_num
  have hmem : (("ORD_1", Order.mk "ORD_1" "T" .SELL (2/5) 20 0 .OPEN))
      ∈ ([("ORD_1", Order.mk "ORD_1" "T" .SELL (2/5) 20 0 .OPEN)] :
        List (OrderId × Order)) := List.mem_singleton.mpr rfl
  obtain ⟨hev, hlook, -, -⟩ := h.2.1 "ORD_1" _ hmem rfl rfl hcross
  refine ⟨(h.1 "ORD_1" _ hmem).mpr ⟨rfl, rfl, hcross⟩, hev, ?_⟩
  rw [hlook]

/-- C9: `getOpenOrders` returns every tracked order of the token regardless
of status; in particular, an order the paper simulator has just FILLED is
still in the returned list, at its original price, so the quote-diff check in
`calculateQuotes` can match an already-filled order. -/
theorem getOpenOrders_spec :
    (∀ (orders : List (OrderId × Order)) (token : TokenId) (k : OrderId)
       (o : Order), (k, o) ∈ orders → o.token_id = token →
       o ∈ getOpenOrders orders token) ∧
    (∀ (orders : List (OrderId × Order)) (token : TokenId) (book : OrderBook)
       (k : OrderId) (o : Order),
       (orders.map Prod.fst).Nodup → (k, o) ∈ orders → o.token_id = token →
       o.status = .OPEN → o.filled_size = 0 → shouldFillOrd book o = true →
       ∃ o2 ∈ getOpenOrders (checkForFills orders token book).1 token,
         o2.status = .FILLED ∧ o2.price = o.price ∧ o2.id = o.id) := by
  have hopen : ∀ (orders : List (OrderId × Order)) (token : TokenId)
      (k : OrderId) (o : Order), (k, o) ∈ orders → o.token_id = token →
      o ∈ getOpenOrders orders token := by
    intro orders token k o hko htok
    exact List.mem_map.mpr ⟨(k, o),
      List.mem_filter.mpr ⟨hko, by simp [htok]⟩, rfl⟩
  refine ⟨hopen, ?_⟩
  intro orders token book k o hnd hko htok hstat hfz hcross
  have hkP : k ∈ crossedIds orders token book :=
    (mem_crossedIds orders token book hnd k o hko).mpr ⟨htok, hstat, hcross⟩
  have hlook : lookupOrd (checkForFills orders token book).1 k
      = some (fillOrderFull o) := by
    rw [checkForFills_eq]
    exact processFills_lookup_of_mem _ _ _ k o
      (crossedIds_nodup orders token book hnd) hkP (mem_lookupOrd hnd hko)
  have hmem2 : (k, fillOrderFull o) ∈ (checkForFills orders token book).1 :=
    lookupOrd_mem hlook
  refine ⟨fillOrderFull o,
    hopen _ token k (fillOrderFull o) hmem2 (by simp [fillOrderFull, htok]),
    ?_, rfl, rfl⟩
  simp [fillOrderFull, hfz]

/-- Witness for C9: the FILLED order is still reported by `getOpenOrders`
after the paper fill, at its original price. -/
theorem getOpenOrders_spec_witness :
    (Order.mk "ORD_1" "T" .SELL (2/5) 20 0 .OPEN)
      ∈ getOpenOrders [("ORD_1", Order.mk "ORD_1" "T" .SELL (2/5) 20 0 .OPEN)] "T" ∧
    (∃ o2 ∈ getOpenOrders (checkForFills
        [("ORD_1", Order.mk "ORD_1" "T" .SELL (2/5) 20 0 .OPEN)] "T"
        (OrderBook.mk [(1/2, 100)] [(3/5, 50)])).1 "T",
      o2.status = .FILLED ∧
      o2.price = (Order.mk "ORD_1" "T" .SELL (2/5) 20 0 .OPEN).price ∧
      o2.id = (Order.mk "ORD_1" "T" .SELL (2/5) 20 0 .OPEN).id) := by
  constructor
  · exact getOpenOrders_spec.1 _ "T" "ORD_1" _ (List.mem_singleton.mpr rfl) rfl
  · refine getOpenOrders_spec.2 _ "T" (OrderBook.mk [(1/2, 100)] [(3/5, 50)])
      "ORD_1" _ (by simp) (List.mem_singleton.mpr rfl) rfl rfl rfl ?_
    simp only [shouldFillOrd, OrderBook.getBestBid]
    norm_num

/-! ## State persistence (utils/state_persistence.cpp)

The persisted file is JSON; we model the parsed document as a small JSON AST
(numbers as exact rationals).  `loadState` mirrors the C++ `try` block:
`nlohmann::json::value(key, default)` yields the default when the key is
absent but throws on a type mismatch, and the surrounding `catch` returns
whatever part of the state had been assigned before the throw. -/

inductive Json where
  | null
  | jbool (b : Bool)
  | num (q : ℚ)
  | str (s : String)
  | arr (items : List Json)
  | obj (fields : List (String × Json))

structure PositionState where
  quantity : ℚ
  avg_cost : ℚ
  realized_pnl : ℚ
deriving Repr, DecidableEq

structure TradingState where
  positions : List (TokenId × PositionState)
  total_realized_pnl : ℚ
  total_trades : ℤ
  total_volume : ℚ
  last_session_id : String
  last_updated : ℤ
deriving Repr, DecidableEq

/-- The default-constructed `TradingState` (all zeros, empty strings). -/
def emptyTradingState : TradingState := ⟨[], 0, 0, 0, "", 0⟩

/-- What a file read can yield: no file, unparseable text, or a JSON value. -/
inductive FileContent where
  | absent
  | unparseable
  | parsed (j : Json)

/-- `StatePersistence::saveState` (state_persistence.cpp lines 23-50): the
JSON document written for a state. -/
def saveState (s : TradingState) : Json :=
  .obj [("last_session_id", .str s.last_session_id),
        ("last_updated", .num (s.last_updated : ℚ)),
        ("total_trades", .num (s.total_trades : ℚ)),
        ("total_volume", .num s.total_volume),
        ("total_realized_pnl", .num s.total_realized_pnl),
        ("positions", .obj (s.positions.map fun tp =>
          (tp.1, Json.obj [("quantity", .num tp.2.quantity),
                           ("avg_cost", .num tp.2.avg_cost),
                           ("realized_pnl", .num tp.2.realized_pnl)])))]

/-- `json::find(key)` on an object's field list. -/
def jfind : List (String × Json) → String → Option Json
  | [], _ => none
  | (k, v) :: rest, key => if k = key then some v else jfind rest key

/-- `static_cast<integral>(double)`: truncation toward zero. -/
def jsonTruncToInt (q : ℚ) : ℤ :=
  if 0 ≤ q then ⌊q⌋ else ⌈q⌉

/-- `j.value(key, string-default)`: `some` of the string (or the default when
absent), `none` models the type-error throw. -/
def readStrField (fields : List (String × Json)) (key dflt : String) :
    Option String :=
  match jfind fields key with
  | none => some dflt
  | some (.str v) => some v
  | some _ => none

/-- `j.value(key, double-default)` with nlohmann's numeric conversions. -/
def readNumField (fields : List (String × Json)) (key : String) (dflt : ℚ) :
    Option ℚ :=
  match jfind fields key with
  | none => some dflt
  | some (.num q) => some q
  | some _ => none

/-- `j.value(key, int-default)`: numbers convert with truncation. -/
def readIntField (fields : List (String × Json)) (key : String) (dflt : ℤ) :
    Option ℤ :=
  match jfind fields key with
  | none => some dflt
  | some (.num q) => some (jsonTruncToInt q)
  | some _ => none

/-- `json::items()`: an object iterates its fields, an array its elements
keyed by the index, null an empty range, any other primitive a single
pseudo-entry; the entry values of non-objects make the per-entry `value()`
calls throw, so their keys never matter. -/
def jsonItems : Json → List (String × Json)
  | .obj fields => fields
  | .arr items => (items.enum.map fun iv => (toString iv.1, iv.2))
  | .null => []
  | j => [("", j)]

/-- The positions loop of `loadState` (lines 77-85): each entry is decoded
with `value()` semantics; a throw aborts the loop keeping the entries
inserted so far. -/
def parsePositions : List (String × Json) → List (TokenId × PositionState)
  | [] => []
  | (tok, .obj pf) :: rest =>
    match readNumField pf "quantity" 0, readNumField pf "avg_cost" 0,
          readNumField pf "realized_pnl" 0 with
    | some q, some a, some r => (tok, ⟨q, a, r⟩) :: parsePositions rest
    | _, _, _ => []
  | (_, _) :: _ => []

/-- `StatePersistence::loadState` (state_persistence.cpp lines 52-98): fresh
state when the file is absent or unparseable; otherwise sequential decoding
inside a `catch` that returns the fields assigned before the first
type-mismatch throw. -/
def loadState (content : FileContent) : TradingState :=
  match content with
  | .absent => emptyTradingState
  | .unparseable => emptyTradingState
  | .parsed j =>
    match j with
    | .obj fields =>
      (match readStrField fields "last_session_id" "" with
       | none => emptyTradingState
       | some sid =>
         let s1 := { emptyTradingState with last_session_id := sid }
         match readIntField fields "total_trades" 0 with
         | none => s1
         | some tt =>
           let s2 := { s1 with total_trades := tt }
           match readNumField fields "total_volume" 0 with
           | none => s2
           | some tv =>
             let s3 := { s2 with total_volume := tv }
             match readNumField fields "total_realized_pnl" 0 with
             | none => s3
             | some tr =>
               let s4 := { s3 with total_realized_pnl := tr }
               match (match jfind fields "last_updated" with
                      | none => some s4.last_updated
                      | some (.num q) => some (jsonTruncToInt q)
                      | some _ => none) with
               | none => s4
               | some lu =>
                 let s5 := { s4 with last_updated := lu }
                 match jfind fields "positions" with
                 | none => s5
                 | some pj => { s5 with positions := parsePositions (jsonItems pj) })
    | _ => emptyTradingState

/-- Truncation toward zero is the identity on integers. -/
theorem jsonTruncToInt_intCast (n : ℤ) : jsonTruncToInt (n : ℚ) = n := by
  unfold jsonTruncToInt
  split
  · exact Int.floor_intCast n
  · exact Int.ceil_intCast n

/-- Decoding the saved positions object recovers the position list. -/
theorem parsePositions_save (ps : List (TokenId × PositionState)) :
    parsePositions (ps.map fun tp =>
      (tp.1, Json.obj [("quantity", .num tp.2.quantity),
                       ("avg_cost", .num tp.2.avg_cost),
                       ("realized_pnl", .num tp.2.realized_pnl)])) = ps := by
  induction ps with
  | nil => rfl
  | cons tp rest ih =>
    obtain ⟨tok, ⟨q, a, r⟩⟩ := tp
    simp [parsePositions, readNumField, jfind, ih]

/-- C7: for every valid trading state (distinct position keys, as the C++
`unordered_map` guarantees), saving and then loading returns an equal state:
same session id, timestamp, totals and per-token position entries. -/
theorem saveState_loadState_roundtrip (s : TradingState)
    (hvalid : (s.positions.map Prod.fst).Nodup) :
    loadState (.parsed (saveState s)) = s := by
  obtain ⟨ps, trp, tt, tv, sid, lu⟩ := s
  simp [loadState, saveState, readStrField, readIntField, readNumField,
        jfind, jsonItems, jsonTruncToInt_intCast, parsePositions_save,
        emptyTradingState]

/-- Witness for C7 at the spec's own recovery scenario (§8 scenario 6). -/
theorem saveState_loadState_roundtrip_witness :
    ((TradingState.mk [("T1", ⟨500, 11/20, 250⟩), ("T2", ⟨-300, 9/20, -50⟩)]
        1000 50 25000 "session_123" 1700000000).positions.map Prod.fst).Nodup ∧
    loadState (.parsed (saveState
        (TradingState.mk [("T1", ⟨500, 11/20, 250⟩), ("T2", ⟨-300, 9/20, -50⟩)]
          1000 50 25000 "session_123" 1700000000)))
      = TradingState.mk [("T1", ⟨500, 11/20, 250⟩), ("T2", ⟨-300, 9/20, -50⟩)]
          1000 50 25000 "session_123" 1700000000 := by
  have hnd : (((TradingState.mk
      [("T1", ⟨500, 11/20, 250⟩), ("T2", ⟨-300, 9/20, -50⟩)]
      1000 50 25000 "session_123" 1700000000)).positions.map Prod.fst).Nodup := by
    simp
  exact ⟨hnd, saveState_loadState_roundtrip _ hnd⟩

/-- C8 as stated is false: well-formed JSON whose `total_volume` field has
the wrong type makes the decoder throw after `last_session_id` was already
assigned, so `loadState` returns a state that is not the fresh empty state
(though no error propagates). -/
theorem loadState_malformed_counterexample :
    loadState (.parsed (.obj [("last_session_id", .str "abc"),
                              ("total_volume", .str "bad")]))
      = { emptyTradingState with last_session_id := "abc" } ∧
    { emptyTradingState with last_session_id := "abc" } ≠ emptyTradingState := by
  constructor
  · rfl
  · intro h
    have h2 := congrArg TradingState.last_session_id h
    simp [emptyTradingState] at h2

/-- C8 amended: `loadState` returns the fresh empty state whenever the file
is absent or its content is not parseable JSON; for parseable content that
violates the schema it returns the fields decoded before the first type
error (defaults elsewhere), and it never propagates an error. -/
theorem loadState_fresh_on_absent_or_unparseable (c : FileContent)
    (h : c = .absent ∨ c = .unparseable) :
    loadState c = emptyTradingState := by
  rcases h with rfl | rfl <;> rfl

/-- Witness for the amended C8 at the absent-file input. -/
theorem loadState_fresh_witness :
    loadState .absent = emptyTradingState :=
  loadState_fresh_on_absent_or_unparseable .absent (Or.inl rfl)
